import Mathlib

/-!
Verification of the path-set resolution and traversal core of `licenser.py`.

The development is a shallow embedding of the Python source:

* Python `pathlib.Path` values are modelled as their string representation
  (`str(path)`); constructing `pathlib.Path(s)` normalizes the string by
  stripping trailing path separators (`normPath`), which is the part of
  pathlib's normalization the program's behaviour depends on.  Paths are
  assumed not to contain doubled internal separators.
* The filesystem is an explicit finite map from path strings to object
  kinds (`FS`), with directory listing (`FS.iterdir`) and single-component
  glob matching (`globMatch`, patterns built from literal characters and
  the `*` wildcard, which is the fragment the program uses).  `~`- and
  `$VAR`-expansion and `Path.resolve()` are modelled as the identity: the
  embedding works over already-canonical path strings, and the `set(...)`
  wrapper of `resolve_paths` is kept as list deduplication.
* Python `set`s are modelled as lists with membership-based insertion
  (`List.insert`); iteration order of a Python set is unspecified, the
  list order is one admissible refinement of it.
* The generator `PathSet.traverse` is modelled as a function returning
  `Except VError (List String)`: the exceptions raised by `validate` on
  first consumption become the `error` case (in which no file has been
  yielded), and the yielded sequence becomes the returned list.  The
  in-place mutation of the shared prune set during the recursion is
  modelled by explicit state passing.
-/

/-! ## String and list utilities -/

/-- `beginsWith n l` is true when the char list `n` is an initial segment
of `l` (the building block of Python's `in` substring test). -/
def beginsWith : List Char → List Char → Bool
  | [], _ => true
  | _ :: _, [] => false
  | a :: as, b :: bs => a == b && beginsWith as bs

/-- `containsSeq n l` is true when `n` occurs contiguously inside `l`:
Python's `n in l` on strings, over the underlying char lists. -/
def containsSeq : List Char → List Char → Bool
  | n, [] => n.isEmpty
  | n, c :: t' => beginsWith n (c :: t') || containsSeq n t'

/-- Python's substring test `needle in hay` on strings. -/
def strContainsSub (needle hay : String) : Bool :=
  containsSeq needle.data hay.data

/-- `dropStart p l` returns `some rest` when `l = p ++ rest`. -/
def dropStart : List Char → List Char → Option (List Char)
  | [], l => some l
  | _ :: _, [] => none
  | a :: as, b :: bs => if a == b then dropStart as bs else none

/-- Boolean list membership for strings (Python's `in` on a set). -/
def memB (x : String) : List String → Bool
  | [] => false
  | y :: t => x == y || memB x t

/-- Single-component glob matching: the fragment of `fnmatch` exercised by
the program, literal characters plus the `*` wildcard (matching any, also
empty, character sequence; a `*` matches when the rest of the pattern
matches some suffix of the rest of the name). -/
def globMatch : List Char → List Char → Bool
  | [], s => s.isEmpty
  | '*' :: ps, s => s.tails.any (fun suf => globMatch ps suf)
  | p :: ps, s =>
    match s with
    | [] => false
    | c :: cs => p == c && globMatch ps cs

/-! ## Path strings -/

/-- Normalization performed by `pathlib.Path(s)` as far as the program
depends on it: trailing separators are stripped (`Path("proj/")` prints as
`proj`), the empty string becomes `.`, and all-separator strings become
the root `/`. -/
def normPath (s : String) : String :=
  let r := (s.data.reverse.dropWhile (fun c => c == '/')).reverse
  if r.isEmpty then (if s.data.isEmpty then ⟨['.']⟩ else ⟨['/']⟩) else ⟨r⟩

/-- Python's `source[-1] == os.sep` (false on the empty string, where the
surrounding `or` short-circuits before the subscript is reached). -/
def endsInSep (s : String) : Bool :=
  s.data.getLast? == some '/'

/-- Joining a directory path with a child name, as `pathlib` renders the
children produced by `iterdir` and `glob` (`Path('.')`'s children print
without a leading `./`). -/
def pathJoin (base name : String) : String :=
  if base == "." then name
  else if base == "/" then "/" ++ name
  else base ++ "/" ++ name

/-- `childNameOf base e = some n` when path `e` is an immediate child of
directory `base` with (separator-free, nonempty) final component `n`. -/
def childNameOf (base e : String) : Option String :=
  if base == "." then
    if e != "." && e != "" && !(e.data.contains '/') then some e else none
  else
    let pre := if base == "/" then ['/'] else base.data ++ ['/']
    match dropStart pre e.data with
    | some rest => if rest != [] && !(rest.contains '/') then some ⟨rest⟩ else none
    | none => none

/-! ## Filesystem model -/

/-- Kind of a filesystem object: directory, regular file, or anything else
(socket, device node, ...). -/
inductive FKind where
  | dir : FKind
  | file : FKind
  | other : FKind
deriving DecidableEq, Repr

/-- A finite filesystem: an association list from canonical path strings
to object kinds.  Absent paths do not exist. -/
structure FS where
  entries : List (String × FKind)
deriving DecidableEq, Repr

/-- Kind of the object at a path, `none` when the path does not exist. -/
def FS.kindOf (fs : FS) (p : String) : Option FKind :=
  fs.entries.lookup p

/-- Python's `os.path.exists`. -/
def FS.pathExists (fs : FS) (p : String) : Bool :=
  (fs.kindOf p).isSome

/-- Python's `os.path.isdir` / `Path.is_dir`. -/
def FS.isDir (fs : FS) (p : String) : Bool :=
  fs.kindOf p == some FKind.dir

/-- Python's `os.path.isfile` / `Path.is_file`. -/
def FS.isFile (fs : FS) (p : String) : Bool :=
  fs.kindOf p == some FKind.file

/-- Names of the immediate children of a directory. -/
def FS.childNames (fs : FS) (base : String) : List String :=
  fs.entries.filterMap (fun e => childNameOf base e.1)

/-- Python's `Path.iterdir`: the immediate children of `base`, as paths. -/
def FS.iterdir (fs : FS) (base : String) : List String :=
  (fs.childNames base).map (pathJoin base)

/-- Python's `Path.glob` for a single-component pattern: the immediate
children of `base` whose name matches the pattern. -/
def FS.globPat (fs : FS) (base : String) (pat : String) : List String :=
  ((fs.childNames base).filter (fun n => globMatch pat.data n.data)).map (pathJoin base)

/-! ## PathSet -/

/-- The `PathSet` of `licenser.py`: three sets of specifiers.  `dirs` and
`files` hold (string representations of) `pathlib.Path` objects, `globs`
holds raw pattern strings. -/
structure PathSet where
  dirs : List String
  files : List String
  globs : List String
deriving DecidableEq, Repr

/-- The empty `PathSet` (the state after `__init__` before `add`). -/
def PathSet.emptySet : PathSet :=
  ⟨[], [], []⟩

/-- Which of the three sets a specifier string lands in: the decision
structure of `PathSet.add` for one source string.  `os.path.expandvars`
is the identity here (specifiers are taken already expanded). -/
inductive SpecClass where
  | dirSpec : SpecClass
  | fileSpec : SpecClass
  | globSpec : SpecClass
deriving DecidableEq, Repr

/-- The classifier inside `PathSet.add`: a wildcard makes a glob;
otherwise `path.is_dir() or (not path.is_file() and ('.' not in source or
source[-1] == os.sep))` makes a directory; otherwise a file. -/
def classify (fs : FS) (source : String) : SpecClass :=
  if source.data.contains '*' then SpecClass.globSpec
  else
    let path := normPath source
    if fs.isDir path || (!(fs.isFile path) && (!(source.data.contains '.') || endsInSep source)) then
      SpecClass.dirSpec
    else
      SpecClass.fileSpec

/-- One iteration of the loop in `PathSet.add`: classify the specifier
and insert it into the matching set (globs keep the raw string, dirs and
files keep the `pathlib.Path`, i.e. the normalized string). -/
def PathSet.addOne (fs : FS) (ps : PathSet) (source : String) : PathSet :=
  match classify fs source with
  | SpecClass.globSpec => { ps with globs := ps.globs.insert source }
  | SpecClass.dirSpec => { ps with dirs := ps.dirs.insert (normPath source) }
  | SpecClass.fileSpec => { ps with files := ps.files.insert (normPath source) }

/-- `PathSet.add`: classify and insert every specifier of the list. -/
def PathSet.add (fs : FS) (ps : PathSet) (sources : List String) : PathSet :=
  sources.foldl (PathSet.addOne fs) ps

/-- `PathSet.__init__`: start from empty sets and `add` the sources. -/
def PathSet.ofSources (fs : FS) (sources : List String) : PathSet :=
  PathSet.add fs PathSet.emptySet sources

/-- `PathSet.prune`: compute the three sets of entries to remove (by
directory-substring containment, file equality, and glob equality) and
subtract them.  The embedding is pure, so the prune argument (`other`) is
read only and the updated `self` is returned. -/
def PathSet.prune (self other : PathSet) : PathSet :=
  let prune_from_dirs := self.dirs.filter (fun s => other.dirs.any (fun p => strContainsSub p s))
  let prune_from_files := self.files.filter (fun s =>
    other.dirs.any (fun p => strContainsSub p s) || other.files.any (fun p => p == s))
  let prune_from_globs := self.globs.filter (fun g => other.globs.any (fun pg => pg == g))
  { dirs := self.dirs.filter (fun s => !(memB s prune_from_dirs)),
    files := self.files.filter (fun s => !(memB s prune_from_files)),
    globs := self.globs.filter (fun g => !(memB g prune_from_globs)) }

/-- `PathSet.resolve_paths`: `expanduser().resolve()` is the identity on
the canonical path strings of the model, so only the `set(...)` wrapper
remains, i.e. deduplication. -/
def PathSet.resolve_paths (paths : List String) : List String :=
  paths.dedup

/-- `PathSet.resolve`: normalize `dirs` and `files`; globs stay raw. -/
def PathSet.resolve (ps : PathSet) : PathSet :=
  { ps with dirs := PathSet.resolve_paths ps.dirs, files := PathSet.resolve_paths ps.files }

/-- `PathSet.resolve_globs`: union of the matches of each glob pattern
relative to `path`, then canonicalized (deduplicated). -/
def PathSet.resolve_globs (fs : FS) (path : String) (globs : List String) : List String :=
  PathSet.resolve_paths (globs.foldl (fun acc g => acc ++ fs.globPat path g) [])

/-- Errors raised by `PathSet.validate_paths`: the `path does not exists`
exception and the `path does not represents a valid object` exception. -/
inductive VError where
  | pathNotFound : String → VError
  | pathKind : String → VError
deriving DecidableEq, Repr

/-- `PathSet.validate_paths`: walk the paths in order and raise on the
first offending one — `pathNotFound` when it does not exist, `pathKind`
when it exists but is neither a directory nor a regular file. -/
def PathSet.validate_paths (fs : FS) : List String → Except VError Unit
  | [] => Except.ok ()
  | p :: ps =>
    if !(fs.pathExists p) then Except.error (VError.pathNotFound p)
    else if !(fs.isDir p) && !(fs.isFile p) then Except.error (VError.pathKind p)
    else PathSet.validate_paths fs ps

/-- `PathSet.validate`: validate `dirs`, then `files`. -/
def PathSet.validate (fs : FS) (ps : PathSet) : Except VError Unit :=
  match PathSet.validate_paths fs ps.dirs with
  | Except.error e => Except.error e
  | Except.ok _ => PathSet.validate_paths fs ps.files

/-- `copy.deepcopy` on a `PathSet`. -/
def PathSet.deepcopy (ps : PathSet) : PathSet :=
  ⟨ps.dirs, ps.files, ps.globs⟩

/-- The working set built for one directory inside `_traverse`:
`s = PathSet(source_ps.globs)`, then `s.add` of the immediate
subdirectories, then `s.add` of the glob matches at that directory. -/
def childWorkSet (fs : FS) (globs : List String) (d : String) : PathSet :=
  let s := PathSet.ofSources fs globs
  let s := PathSet.add fs s ((fs.iterdir d).filter (fun p => fs.isDir p))
  PathSet.add fs s (PathSet.resolve_globs fs d globs)

/-- The `for source_path in source_ps.dirs` loop of `_traverse`: for each
directory build its `childWorkSet`, extend the shared prune set with the
prune-glob matches at that directory, and run `step` (the one-level-deeper
descent) on the pair.  The shared, mutated `prune_ps` is threaded as
explicit state through the iterations and returned next to the yields. -/
def traverseDirsWith (fs : FS) (step : PathSet → PathSet → List String × PathSet)
    (globs : List String) : List String → PathSet → List String × PathSet
  | [], pps => ([], pps)
  | d :: ds, pps =>
    let s := childWorkSet fs globs d
    let pps2 := PathSet.add fs pps (PathSet.resolve_globs fs d pps.globs)
    let r1 := step s pps2
    let r2 := traverseDirsWith fs step globs ds r1.2
    (r1.1 ++ r2.1, r2.2)

/-- `_traverse`: prune the working set, yield its files, stop when
non-recursive below depth 0, otherwise walk the remaining directories,
descending with one unit of fuel less.  `fuel` bounds the recursion depth
(the caller passes enough for the finite filesystem, see `fsFuel`). -/
def traverseAux (fs : FS) (recurse : Bool) :
    Nat → PathSet → PathSet → Nat → List String × PathSet
  | 0, _, pps, _ => ([], pps)
  | fuel + 1, sps, pps, depth =>
    let spsP := sps.prune pps
    if recurse = false ∧ 0 < depth then (spsP.files, pps)
    else
      let r := traverseDirsWith fs
        (fun s p => traverseAux fs recurse fuel s p (depth + 1)) spsP.globs spsP.dirs pps
      (spsP.files ++ r.1, r.2)

/-- Fuel that always suffices for the recursion of `_traverse`: every
directory entered below the first level is a distinct filesystem entry
along its chain, so the depth never exceeds the number of entries. -/
def fsFuel (fs : FS) : Nat :=
  fs.entries.length + 2

/-- The default-fill step at the top of `traverse`: consider `.` when no
directories or files are specified, then `*` when no files or globs are
specified. -/
def defaultFill (fs : FS) (ps : PathSet) : PathSet :=
  let ps := if ps.files.isEmpty && ps.dirs.isEmpty then PathSet.add fs ps ["."] else ps
  if ps.files.isEmpty && ps.globs.isEmpty then PathSet.add fs ps ["*"] else ps

/-- `PathSet.traverse`: deep-copy both sets, default-fill the source
copy, resolve and validate it, resolve the prune copy, and run the
recursive descent.  An exception from `validate` (raised on first
consumption of the generator, before any file is yielded) is the `error`
case; otherwise the full yielded sequence is returned. -/
def PathSet.traverse (fs : FS) (self prune_ps : PathSet) (recurse : Bool) :
    Except VError (List String) :=
  let source_ps := PathSet.deepcopy self
  let prune_ps := PathSet.deepcopy prune_ps
  let source_ps := defaultFill fs source_ps
  let source_ps := PathSet.resolve source_ps
  match PathSet.validate fs source_ps with
  | Except.error e => Except.error e
  | Except.ok _ =>
    let prune_ps := PathSet.resolve prune_ps
    Except.ok (traverseAux fs recurse (fsFuel fs) source_ps prune_ps 0).1

/-- A call `self.traverse(prune_ps, recurse=...)` as seen by the caller:
the method only deep-copies the two argument sets (all further mutation
happens on the copies inside `PathSet.traverse`), so the caller's
bindings after the call still hold the original values, returned here
next to the result. -/
def traverseCall (fs : FS) (self prune_ps : PathSet) (recurse : Bool) :
    Except VError (List String) × PathSet × PathSet :=
  (PathSet.traverse fs self prune_ps recurse, self, prune_ps)

/-- The yielded files of a traversal result (none when the generator
raised before yielding). -/
def yieldsOf : Except VError (List String) → List String
  | Except.ok l => l
  | Except.error _ => []

/-- The text transformation of `add_license` on one file: prepend the
license text unless it already occurs as a substring of the content. -/
def addLicenseText (licenseText fileText : String) : String :=
  if strContainsSub licenseText fileText then fileText
  else licenseText ++ fileText

/-! ## Claim-side definitions (stated from the words of the claims, for
comparison with the embedded code) -/

/-- The classification rule in the words of claim C3: wildcard → glob;
existing directory → directory; nonexistent path with no period or a
trailing separator → directory; otherwise file. -/
def claimClassifyC3 (fs : FS) (source : String) : SpecClass :=
  if source.data.contains '*' then SpecClass.globSpec
  else if fs.isDir (normPath source) then SpecClass.dirSpec
  else if !(fs.pathExists (normPath source))
      && (!(source.data.contains '.') || endsInSep source) then SpecClass.dirSpec
  else SpecClass.fileSpec

/-- The amended classification rule for claim C3: as the claim, with
`path does not exist` replaced by `path is not a regular file`, which is
the test the code performs. -/
def amendedClassifyC3 (fs : FS) (source : String) : SpecClass :=
  if source.data.contains '*' then SpecClass.globSpec
  else if fs.isDir (normPath source) then SpecClass.dirSpec
  else if !(fs.isFile (normPath source))
      && (!(source.data.contains '.') || endsInSep source) then SpecClass.dirSpec
  else SpecClass.fileSpec

/-- The per-directory working set in the words of claim C4: seeded with
the parent's glob patterns, the immediate subdirectories added as
directory specifiers, and the glob matches added as file specifiers
(all three taken literally, as set contents). -/
def claimChildWorkSetC4 (fs : FS) (globs : List String) (d : String) : PathSet :=
  { dirs := ((fs.iterdir d).filter (fun p => fs.isDir p)).foldl (fun l p => l.insert p) [],
    files := (PathSet.resolve_globs fs d globs).foldl (fun l p => l.insert p) [],
    globs := globs.foldl (fun l g => l.insert g) [] }

/-- The one-level closed form of the traversal for `recurse = False`: the
loop over the surviving depth-0 directories, where each depth-1 call only
prunes and yields its files before the stop condition fires. -/
def levelOneDirs (fs : FS) (gs : List String) : List String → PathSet → List String × PathSet
  | [], pps => ([], pps)
  | d :: ds, pps =>
    let s := childWorkSet fs gs d
    let pps2 := PathSet.add fs pps (PathSet.resolve_globs fs d pps.globs)
    let y := (s.prune pps2).files
    let r := levelOneDirs fs gs ds pps2
    (y ++ r.1, r.2)

/-- The full one-level closed form for `recurse = False`: the surviving
depth-0 files, followed per surviving depth-0 directory by the surviving
files of its child working set. -/
def levelOneYields (fs : FS) (sps pps : PathSet) : List String × PathSet :=
  let spsP := sps.prune pps
  let r := levelOneDirs fs spsP.globs spsP.dirs pps
  (spsP.files ++ r.1, r.2)

/-- Componentwise containment of `PathSet`s (growth of the prune set). -/
def PathSet.subsetOf (a b : PathSet) : Prop :=
  a.dirs ⊆ b.dirs ∧ a.files ⊆ b.files ∧ a.globs ⊆ b.globs

/-! ## Concrete filesystems and path sets used as test inputs -/

/-- The spec's recursive-traversal scenario filesystem: `proj/a.py`,
`proj/build/x.py`, `proj/sub/b.py`. -/
def fsScen : FS :=
  ⟨[("proj", FKind.dir), ("proj/a.py", FKind.file), ("proj/build", FKind.dir),
    ("proj/build/x.py", FKind.file), ("proj/sub", FKind.dir), ("proj/sub/b.py", FKind.file)]⟩

/-- A filesystem on which two overlapping source directories make the
traversal yield the same file twice. -/
def fsDup : FS :=
  ⟨[("proj", FKind.dir), ("proj/sub", FKind.dir), ("proj/sub/b.py", FKind.file)]⟩

/-- A filesystem whose only entry is a path of kind `other` (a socket). -/
def fsSock : FS :=
  ⟨[("sock", FKind.other)]⟩

/-- A directory whose glob matches include a subdirectory. -/
def fsGlobDir : FS :=
  ⟨[("d", FKind.dir), ("d/sub", FKind.dir), ("d/m.py", FKind.file)]⟩

/-- A directory with a file in it, next to a top-level file. -/
def fsDirFile : FS :=
  ⟨[("d", FKind.dir), ("d/a.py", FKind.file), ("f.py", FKind.file)]⟩

/-- A current working directory containing one file. -/
def fsCwd : FS :=
  ⟨[(".", FKind.dir), ("a.py", FKind.file)]⟩

/-- A filesystem with a socket and a directory, for validation tests. -/
def fsVal : FS :=
  ⟨[("sock", FKind.other), ("adir", FKind.dir)]⟩

/-- A path set whose files list a nonexistent path before the socket. -/
def psValNF : PathSet :=
  ⟨[], ["missing", "sock"], []⟩

/-- A path set whose files list the socket before a nonexistent path. -/
def psValK : PathSet :=
  ⟨[], ["sock", "missing"], []⟩


/-! ## Helper lemmas -/

theorem memB_iff (x : String) (l : List String) : memB x l = true ↔ x ∈ l := by
  induction l with
  | nil => simp [memB]
  | cons y t ih => simp [memB, ih, List.mem_cons, beq_iff_eq]

theorem memB_eq_false (x : String) (l : List String) : memB x l = false ↔ x ∉ l := by
  rw [← memB_iff]
  cases h : memB x l <;> simp

theorem beginsWith_append (l r : List Char) : beginsWith l (l ++ r) = true := by
  induction l with
  | nil => rfl
  | cons a as ih => simp [beginsWith, ih]

theorem containsSeq_of_beginsWith (n l : List Char) (h : beginsWith n l = true) :
    containsSeq n l = true := by
  cases l with
  | nil =>
    cases n with
    | nil => rfl
    | cons a as => simp [beginsWith] at h
  | cons c t => simp [containsSeq, h]

theorem containsSeq_append_self (n r : List Char) : containsSeq n (n ++ r) = true :=
  containsSeq_of_beginsWith n (n ++ r) (beginsWith_append n r)

theorem str_data_append (a b : String) : (a ++ b).data = a.data ++ b.data := rfl

/-! ## Claim theorems -/

/-- C1: `prune(self, other)` keeps in `self.dirs` exactly the directories
no prune directory's string is a substring of, keeps in `self.files`
exactly the files no prune directory's string is a substring of and that
equal no prune file, and keeps in `self.globs` exactly the globs equal to
no prune glob; the pure embedding returns the updated `self` and leaves
`other` untouched. -/
theorem prune_removes_exactly (self other : PathSet) (d f g : String) :
    (d ∈ (self.prune other).dirs ↔
      d ∈ self.dirs ∧ ¬ ∃ p ∈ other.dirs, strContainsSub p d = true) ∧
    (f ∈ (self.prune other).files ↔
      f ∈ self.files ∧ ¬ (∃ p ∈ other.dirs, strContainsSub p f = true) ∧ f ∉ other.files) ∧
    (g ∈ (self.prune other).globs ↔ g ∈ self.globs ∧ g ∉ other.globs) := by
  refine ⟨?_, ?_, ?_⟩ <;>
    simp [PathSet.prune, List.mem_filter, memB_eq_false, List.any_eq_true, beq_iff_eq,
      Bool.not_eq_true, not_or] <;>
    tauto

/-- C9: the license mutation leaves a file alone exactly when the license
text already occurs in it, prepends it verbatim otherwise, and running it
twice equals running it once. -/
theorem add_license_idempotent (lic c : String) :
    (strContainsSub lic c = true → addLicenseText lic c = c) ∧
    (strContainsSub lic c = false → addLicenseText lic c = lic ++ c) ∧
    addLicenseText lic (addLicenseText lic c) = addLicenseText lic c := by
  refine ⟨fun h => by simp [addLicenseText, h], fun h => by simp [addLicenseText, h], ?_⟩
  by_cases h : strContainsSub lic c = true
  · simp [addLicenseText, h]
  · have h' : strContainsSub lic c = false := by simpa using h
    have hin : strContainsSub lic (lic ++ c) = true := by
      unfold strContainsSub
      rw [str_data_append]
      exact containsSeq_append_self lic.data c.data
    simp [addLicenseText, h', hin]

/-- C9 witness: at a concrete license and file content, the license is
not yet contained and gets prepended. -/
theorem add_license_idempotent_witness :
    addLicenseText "LIC\n" "code\n" = "LIC\n" ++ "code\n" :=
  (add_license_idempotent "LIC\n" "code\n").2.1 (by decide)

/-- C3 counterexample: on a filesystem whose only entry is a socket named
`sock`, the claim's rule (path exists, so not a directory by the
nonexistence heuristic, hence a file) classifies `sock` as a file, while
the code (which tests `not path.is_file()`, not nonexistence) classifies
it as a directory. -/
theorem classify_claim_rule_fails :
    classify fsSock "sock" = SpecClass.dirSpec ∧
    claimClassifyC3 fsSock "sock" = SpecClass.fileSpec ∧
    (PathSet.ofSources fsSock ["sock"]).dirs = ["sock"] ∧
    fsSock.pathExists "sock" = true := by decide

/-- C3 amended: the classifier applies the ordered rule with `path is not
a regular file` in place of `path does not exist`: wildcard → glob, else
existing directory → directory, else not-a-regular-file with no period or
a trailing separator → directory, else file; and `add` inserts the
specifier into the set named by the classifier (the raw string for globs,
the normalized path for directories and files). -/
theorem classify_matches_amended_rule (fs : FS) (ps : PathSet) (s : String) :
    classify fs s = amendedClassifyC3 fs s ∧
    (classify fs s = SpecClass.globSpec →
      PathSet.addOne fs ps s = { ps with globs := ps.globs.insert s }) ∧
    (classify fs s = SpecClass.dirSpec →
      PathSet.addOne fs ps s = { ps with dirs := ps.dirs.insert (normPath s) }) ∧
    (classify fs s = SpecClass.fileSpec →
      PathSet.addOne fs ps s = { ps with files := ps.files.insert (normPath s) }) := by
  refine ⟨?_, fun h => by simp [PathSet.addOne, h], fun h => by simp [PathSet.addOne, h],
    fun h => by simp [PathSet.addOne, h]⟩
  cases hA : s.data.contains '*' <;>
    cases hD : fs.isDir (normPath s) <;>
    cases hF : fs.isFile (normPath s) <;>
    cases hP : (!(s.data.contains '.') || endsInSep s) <;>
    simp [classify, amendedClassifyC3, hA, hD, hF, hP]

/-- C3 amended witness: the socket specifier is inserted into `dirs`. -/
theorem classify_matches_amended_rule_witness :
    PathSet.addOne fsSock PathSet.emptySet "sock"
      = { PathSet.emptySet with dirs := PathSet.emptySet.dirs.insert (normPath "sock") } :=
  (classify_matches_amended_rule fsSock PathSet.emptySet "sock").2.2.1 (by decide)

/-- C6: when the current working directory is a directory of the
filesystem, default-filling the empty source set produces exactly the
path set built from the specifiers `.` and `*`, and traversing the empty
set is the same as traversing that set. -/
theorem default_fill_equiv (fs : FS) (pps : PathSet) (r : Bool)
    (h : fs.isDir "." = true) :
    defaultFill fs PathSet.emptySet = PathSet.ofSources fs [".", "*"] ∧
    PathSet.traverse fs PathSet.emptySet pps r
      = PathSet.traverse fs (PathSet.ofSources fs [".", "*"]) pps r := by
  have h1 : ("." : String).data.contains '*' = false := by decide
  have h2 : normPath "." = "." := by decide
  have hdot : classify fs "." = SpecClass.dirSpec := by simp [classify, h1, h2, h]
  have h3 : ("*" : String).data.contains '*' = true := by decide
  have hstar : classify fs "*" = SpecClass.globSpec := by simp [classify, h3]
  have hos : PathSet.ofSources fs [".", "*"] = ⟨["."], [], ["*"]⟩ := by
    simp [PathSet.ofSources, PathSet.add, PathSet.addOne, hdot, hstar, PathSet.emptySet,
      List.insert, h2]
  have hfillEmpty : defaultFill fs PathSet.emptySet = ⟨["."], [], ["*"]⟩ := by
    simp [defaultFill, PathSet.emptySet, PathSet.add, PathSet.addOne, hdot, hstar,
      List.insert, h2, List.isEmpty]
  have hfillOs : defaultFill fs (PathSet.ofSources fs [".", "*"]) = ⟨["."], [], ["*"]⟩ := by
    rw [hos]
    simp [defaultFill, List.isEmpty]
  refine ⟨by rw [hfillEmpty, hos], ?_⟩
  have hdc : ∀ q : PathSet, PathSet.deepcopy q = q := fun q => rfl
  simp only [PathSet.traverse, hdc, hfillEmpty, hfillOs]

/-- C6 witness: on a concrete one-file working directory, the two
traversals agree. -/
theorem default_fill_equiv_witness :
    PathSet.traverse fsCwd PathSet.emptySet PathSet.emptySet false
      = PathSet.traverse fsCwd (PathSet.ofSources fsCwd [".", "*"]) PathSet.emptySet false :=
  (default_fill_equiv fsCwd PathSet.emptySet false (by decide)).2

/-- C7 counterexample: with the socket listed before a nonexistent path,
validation raises the kind error, although some path does not exist — so
`PathNotFoundError` is not raised whenever some path does not exist, and
the claim's two biconditionals cannot both hold. -/
theorem validate_iff_counterexample :
    PathSet.validate fsVal psValK = Except.error (VError.pathKind "sock") ∧
    "missing" ∈ psValK.files ∧ fsVal.pathExists "missing" = false :=
  ⟨rfl, by decide, by decide⟩

/-- C7 amended: validation succeeds exactly when every path exists as a
regular file or directory; an error always reports an offending path of
the matching kind (`pathNotFound` for a nonexistent path, `pathKind` for
an existing path of the wrong kind); and `traverse` raises exactly the
validation error of its (default-filled, resolved) source copy — before
any file is yielded, and never one for the prune set. -/
theorem validate_first_offender (fs : FS) (l : List String) (sps pps : PathSet) (r : Bool) :
    (PathSet.validate_paths fs l = Except.ok () ↔
      ∀ p ∈ l, fs.pathExists p = true ∧ (fs.isDir p = true ∨ fs.isFile p = true)) ∧
    (∀ p, PathSet.validate_paths fs l = Except.error (VError.pathNotFound p) →
      p ∈ l ∧ fs.pathExists p = false) ∧
    (∀ p, PathSet.validate_paths fs l = Except.error (VError.pathKind p) →
      p ∈ l ∧ fs.pathExists p = true ∧ fs.isDir p = false ∧ fs.isFile p = false) ∧
    (∀ e, PathSet.traverse fs sps pps r = Except.error e ↔
      PathSet.validate fs (PathSet.resolve (defaultFill fs (PathSet.deepcopy sps)))
        = Except.error e) := by
  refine ⟨?_, ?_, ?_, ?_⟩
  · induction l with
    | nil => simp [PathSet.validate_paths]
    | cons q t ih =>
      cases hE : fs.pathExists q
      · simp [PathSet.validate_paths, hE]
      · cases hD : fs.isDir q
        · cases hF : fs.isFile q
          · simp [PathSet.validate_paths, hE, hD, hF]
          · simp [PathSet.validate_paths, hE, hD, hF, ih]
        · simp [PathSet.validate_paths, hE, hD, ih]
  · intro p
    induction l with
    | nil => simp [PathSet.validate_paths]
    | cons q t ih =>
      cases hE : fs.pathExists q
      · simp [PathSet.validate_paths, hE]
        intro hq
        simp [← hq, hE]
      · cases hD : fs.isDir q
        · cases hF : fs.isFile q
          · simp [PathSet.validate_paths, hE, hD, hF]
          · simp [PathSet.validate_paths, hE, hD, hF]
            intro hp
            exact ⟨Or.inr (ih hp).1, (ih hp).2⟩
        · simp [PathSet.validate_paths, hE, hD]
          intro hp
          exact ⟨Or.inr (ih hp).1, (ih hp).2⟩
  · intro p
    induction l with
    | nil => simp [PathSet.validate_paths]
    | cons q t ih =>
      cases hE : fs.pathExists q
      · simp [PathSet.validate_paths, hE]
      · cases hD : fs.isDir q
        · cases hF : fs.isFile q
          · simp [PathSet.validate_paths, hE, hD, hF]
            intro hq
            simp [← hq, hE, hD, hF]
          · simp [PathSet.validate_paths, hE, hD, hF]
            intro hp
            refine ⟨Or.inr (ih hp).1, (ih hp).2.1, (ih hp).2.2⟩
        · simp [PathSet.validate_paths, hE, hD]
          intro hp
          refine ⟨Or.inr (ih hp).1, (ih hp).2.1, (ih hp).2.2⟩
  · intro e
    cases h : PathSet.validate fs (PathSet.resolve (defaultFill fs (PathSet.deepcopy sps))) with
    | error e' => simp [PathSet.traverse, h]
    | ok u => simp [PathSet.traverse, h]

/-- C7 amended witness: the kind-error branch reports the socket. -/
theorem validate_first_offender_witness :
    "sock" ∈ ["sock"] ∧ fsVal.pathExists "sock" = true ∧
    fsVal.isDir "sock" = false ∧ fsVal.isFile "sock" = false :=
  (validate_first_offender fsVal ["sock"] PathSet.emptySet PathSet.emptySet false).2.2.1
    "sock" rfl

/-- C8: a call of `traverse` leaves the caller's source and prune sets
holding exactly their values from before the call (the method only reads
them, into deep copies), and calling again on those values reproduces the
same yielded sequence. -/
theorem traverse_preserves_inputs (fs : FS) (sps pps : PathSet) (r : Bool) :
    (traverseCall fs sps pps r).2.1 = sps ∧
    (traverseCall fs sps pps r).2.2 = pps ∧
    (traverseCall fs (traverseCall fs sps pps r).2.1 (traverseCall fs sps pps r).2.2 r).1
      = (traverseCall fs sps pps r).1 :=
  ⟨rfl, rfl, rfl⟩

/-- C2 counterexample, refuting both halves of the claim.  Exactly-once
fails: with the overlapping source directories `proj` and `proj/sub`, the
recursive traversal yields `proj/sub/b.py` twice.  Completeness fails:
with sources `d` and `f.py` and `recurse = True`, the file `d/a.py` is
reachable by descent through the specified directory `d` and survives
pruning (the prune set is empty), yet it is never yielded, because the
explicit file specifier suppresses the default `*` glob and working sets
acquire files only through glob matches. -/
theorem traverse_duplicate_yield :
    (yieldsOf (PathSet.traverse fsDup (PathSet.ofSources fsDup ["proj", "proj/sub"])
      PathSet.emptySet true)).count "proj/sub/b.py" = 2 ∧
    fsDirFile.isFile "d/a.py" = true ∧
    "d" ∈ (PathSet.ofSources fsDirFile ["d", "f.py"]).dirs ∧
    "d/a.py" ∉ yieldsOf (PathSet.traverse fsDirFile (PathSet.ofSources fsDirFile ["d", "f.py"])
      PathSet.emptySet true) := by decide

theorem subsetOf_refl (a : PathSet) : a.subsetOf a :=
  ⟨fun _ h => h, fun _ h => h, fun _ h => h⟩

theorem subsetOf_trans {a b c : PathSet} (h1 : a.subsetOf b) (h2 : b.subsetOf c) :
    a.subsetOf c :=
  ⟨h1.1.trans h2.1, h1.2.1.trans h2.2.1, h1.2.2.trans h2.2.2⟩

theorem addOne_subsetOf (fs : FS) (ps : PathSet) (s : String) :
    ps.subsetOf (ps.addOne fs s) := by
  unfold PathSet.addOne
  cases classify fs s
  · exact ⟨List.subset_insert _ _, fun _ h => h, fun _ h => h⟩
  · exact ⟨fun _ h => h, List.subset_insert _ _, fun _ h => h⟩
  · exact ⟨fun _ h => h, fun _ h => h, List.subset_insert _ _⟩

theorem add_subsetOf (fs : FS) (l : List String) (ps : PathSet) :
    ps.subsetOf (ps.add fs l) := by
  induction l generalizing ps with
  | nil => exact subsetOf_refl ps
  | cons s t ih => exact subsetOf_trans (addOne_subsetOf fs ps s) (ih (ps.addOne fs s))

theorem traverseDirsWith_grows (fs : FS) (step : PathSet → PathSet → List String × PathSet)
    (hstep : ∀ (s p : PathSet), p.subsetOf (step s p).2) (gs : List String) (ds : List String)
    (pps : PathSet) : pps.subsetOf (traverseDirsWith fs step gs ds pps).2 := by
  induction ds generalizing pps with
  | nil => exact subsetOf_refl pps
  | cons d t ih =>
    exact subsetOf_trans (add_subsetOf fs (PathSet.resolve_globs fs d pps.globs) pps)
      (subsetOf_trans (hstep _ _) (ih _))

/-- C10: the threaded prune set only ever grows during a traversal: the
prune set coming out of any recursive descent (which is the one passed on
to the sibling directories visited afterwards) contains every directory,
file and glob of the prune set going in; entries are only added (the
prune-glob matches at each visited directory), never removed. -/
theorem prune_set_only_grows (fs : FS) (recurse : Bool) (fuel : Nat) (sps pps : PathSet)
    (depth : Nat) : pps.subsetOf (traverseAux fs recurse fuel sps pps depth).2 := by
  induction fuel generalizing sps pps depth with
  | zero => exact subsetOf_refl pps
  | succ n ih =>
    by_cases h : (recurse = false ∧ 0 < depth)
    · simp only [traverseAux, if_pos h]
      exact subsetOf_refl pps
    · simp only [traverseAux, if_neg h]
      exact traverseDirsWith_grows fs _ (fun s p => ih s p (depth + 1)) _ _ pps

theorem traverseAux_succ_eq (fs : FS) (recurse : Bool) (fuel : Nat) (sps pps : PathSet)
    (depth : Nat) :
    traverseAux fs recurse (fuel + 1) sps pps depth =
      if recurse = false ∧ 0 < depth then ((sps.prune pps).files, pps)
      else
        ((sps.prune pps).files ++ (traverseDirsWith fs
            (fun s p => traverseAux fs recurse fuel s p (depth + 1))
            (sps.prune pps).globs (sps.prune pps).dirs pps).1,
          (traverseDirsWith fs (fun s p => traverseAux fs recurse fuel s p (depth + 1))
            (sps.prune pps).globs (sps.prune pps).dirs pps).2) := rfl

/-- C5 amended: with `recurse = False` (and any fuel at least 2, as the
traversal entry point always supplies), the descent reduces to its
one-level closed form: the surviving depth-0 files are yielded, then, per
surviving depth-0 directory, exactly the surviving files of that
directory's child working set (its glob matches that classify as files);
nothing below one level of descent is reached. -/
theorem traverse_nonrecursive_one_level (fs : FS) (n : Nat) (sps pps : PathSet) :
    traverseAux fs false (n + 2) sps pps 0 = levelOneYields fs sps pps := by
  have hstop : ∀ (s p : PathSet),
      traverseAux fs false (n + 1) s p (0 + 1) = ((s.prune p).files, p) := by
    intro s p
    rw [traverseAux_succ_eq]
    simp
  have hdirs : ∀ (gs ds : List String) (p : PathSet),
      traverseDirsWith fs (fun s q => traverseAux fs false (n + 1) s q (0 + 1)) gs ds p
        = levelOneDirs fs gs ds p := by
    intro gs ds
    induction ds with
    | nil => intro p; rfl
    | cons d t ih =>
      intro p
      simp only [traverseDirsWith, levelOneDirs]
      rw [hstop, ih]
  rw [show n + 2 = (n + 1) + 1 from rfl, traverseAux_succ_eq, if_neg (by simp), hdirs]
  rfl

/-- C5 counterexample: sources `d` (a directory containing `d/a.py`) and
`f.py`, no globs, `recurse = False`: the traversal yields only `f.py`;
the file `d/a.py`, directly present in the initially specified directory
`d`, is not yielded (no glob pattern selects files of `d`). -/
theorem nonrecursive_misses_dir_files :
    fsDirFile.isFile "d/a.py" = true ∧
    "d" ∈ (PathSet.ofSources fsDirFile ["d", "f.py"]).dirs ∧
    yieldsOf (PathSet.traverse fsDirFile (PathSet.ofSources fsDirFile ["d", "f.py"])
      PathSet.emptySet false) = ["f.py"] ∧
    "d/a.py" ∉ yieldsOf (PathSet.traverse fsDirFile (PathSet.ofSources fsDirFile ["d", "f.py"])
      PathSet.emptySet false) := by decide

theorem addOne_dirs_mem (fs : FS) (ps : PathSet) (s p : String) :
    p ∈ (ps.addOne fs s).dirs ↔
      p ∈ ps.dirs ∨ (classify fs s = SpecClass.dirSpec ∧ normPath s = p) := by
  cases hc : classify fs s <;>
    simp [PathSet.addOne, hc, List.mem_insert_iff, eq_comm] <;> tauto

theorem addOne_files_mem (fs : FS) (ps : PathSet) (s p : String) :
    p ∈ (ps.addOne fs s).files ↔
      p ∈ ps.files ∨ (classify fs s = SpecClass.fileSpec ∧ normPath s = p) := by
  cases hc : classify fs s <;>
    simp [PathSet.addOne, hc, List.mem_insert_iff, eq_comm] <;> tauto

theorem addOne_globs_mem (fs : FS) (ps : PathSet) (s p : String) :
    p ∈ (ps.addOne fs s).globs ↔
      p ∈ ps.globs ∨ (classify fs s = SpecClass.globSpec ∧ s = p) := by
  cases hc : classify fs s <;>
    simp [PathSet.addOne, hc, List.mem_insert_iff, eq_comm] <;> tauto

theorem mem_dirs_add (fs : FS) (l : List String) (ps : PathSet) (p : String) :
    p ∈ (ps.add fs l).dirs ↔
      p ∈ ps.dirs ∨ ∃ s ∈ l, classify fs s = SpecClass.dirSpec ∧ normPath s = p := by
  induction l generalizing ps with
  | nil => simp [PathSet.add]
  | cons s t ih =>
    have hstep : PathSet.add fs ps (s :: t) = PathSet.add fs (ps.addOne fs s) t := rfl
    rw [hstep, ih, addOne_dirs_mem, List.exists_mem_cons_iff]
    tauto

theorem mem_files_add (fs : FS) (l : List String) (ps : PathSet) (p : String) :
    p ∈ (ps.add fs l).files ↔
      p ∈ ps.files ∨ ∃ s ∈ l, classify fs s = SpecClass.fileSpec ∧ normPath s = p := by
  induction l generalizing ps with
  | nil => simp [PathSet.add]
  | cons s t ih =>
    have hstep : PathSet.add fs ps (s :: t) = PathSet.add fs (ps.addOne fs s) t := rfl
    rw [hstep, ih, addOne_files_mem, List.exists_mem_cons_iff]
    tauto

theorem mem_globs_add (fs : FS) (l : List String) (ps : PathSet) (p : String) :
    p ∈ (ps.add fs l).globs ↔
      p ∈ ps.globs ∨ ∃ s ∈ l, classify fs s = SpecClass.globSpec ∧ s = p := by
  induction l generalizing ps with
  | nil => simp [PathSet.add]
  | cons s t ih =>
    have hstep : PathSet.add fs ps (s :: t) = PathSet.add fs (ps.addOne fs s) t := rfl
    rw [hstep, ih, addOne_globs_mem, List.exists_mem_cons_iff]
    tauto

theorem isFile_eq_false_of_isDir (fs : FS) (p : String) (h : fs.isDir p = true) :
    fs.isFile p = false := by
  simp [FS.isDir] at h
  simp [FS.isFile, h]

theorem classify_glob_of_contains (fs : FS) (g : String) (h : g.data.contains '*' = true) :
    classify fs g = SpecClass.globSpec := by
  have h' : '*' ∈ g.data := by simpa using h
  simp [classify, h']

theorem classify_ne_glob (fs : FS) (s : String) (h : s.data.contains '*' = false) :
    classify fs s ≠ SpecClass.globSpec := by
  unfold classify
  rw [h]
  simp only [Bool.false_eq_true, if_false]
  split <;> simp

theorem classify_dir_of_isDir (fs : FS) (p : String) (h1 : p.data.contains '*' = false)
    (h2 : normPath p = p) (h3 : fs.isDir p = true) :
    classify fs p = SpecClass.dirSpec := by
  have h1' : '*' ∉ p.data := by simpa using h1
  simp [classify, h1', h2, h3]

theorem classify_file_of_isFile (fs : FS) (p : String) (h1 : p.data.contains '*' = false)
    (h2 : normPath p = p) (h3 : fs.isFile p = true) (h4 : fs.isDir p = false) :
    classify fs p = SpecClass.fileSpec := by
  have h1' : '*' ∉ p.data := by simpa using h1
  simp [classify, h1', h2, h3, h4]

/-- C4 counterexample: with the root glob `*` at directory `d`, the
subdirectory `d/sub` is among the glob matches; the claim's wording adds
all matches as file specifiers, so it puts `d/sub` into `files`, but the
code routes matches through the classifier, which puts the directory
match into `dirs` and not into `files`. -/
theorem child_set_matches_not_all_files :
    "d/sub" ∈ (claimChildWorkSetC4 fsGlobDir ["*"] "d").files ∧
    "d/sub" ∉ (childWorkSet fsGlobDir ["*"] "d").files ∧
    "d/sub" ∈ PathSet.resolve_globs fsGlobDir "d" ["*"] ∧
    fsGlobDir.isDir "d/sub" = true := by decide

/-- C4 amended: for a visited directory the working set is seeded with
the parent's glob patterns (its globs are exactly the parent's), its
directories are exactly the immediate subdirectories together with the
glob matches that are directories, and its files are exactly the glob
matches that are regular files — so the parent's patterns are re-resolved
at every visited directory, with matches classified by kind.  The
hypotheses state well-formedness of the inputs: glob patterns contain a
wildcard, listed children and matches are wildcard-free normalized paths,
and every match exists as a directory or regular file. -/
theorem child_work_set_spec (fs : FS) (gs : List String) (d : String)
    (hg : ∀ g ∈ gs, g.data.contains '*' = true)
    (hsub : ∀ p ∈ fs.iterdir d, p.data.contains '*' = false ∧ normPath p = p)
    (hm : ∀ p ∈ PathSet.resolve_globs fs d gs,
      p.data.contains '*' = false ∧ normPath p = p ∧
        (fs.isDir p = true ∨ fs.isFile p = true)) :
    (∀ g, g ∈ (childWorkSet fs gs d).globs ↔ g ∈ gs) ∧
    (∀ p, p ∈ (childWorkSet fs gs d).dirs ↔
      ((p ∈ fs.iterdir d ∨ p ∈ PathSet.resolve_globs fs d gs) ∧ fs.isDir p = true)) ∧
    (∀ p, p ∈ (childWorkSet fs gs d).files ↔
      (p ∈ PathSet.resolve_globs fs d gs ∧ fs.isFile p = true)) := by
  have hcw : childWorkSet fs gs d =
      PathSet.add fs (PathSet.add fs (PathSet.add fs PathSet.emptySet gs)
        ((fs.iterdir d).filter (fun p => fs.isDir p)))
        (PathSet.resolve_globs fs d gs) := rfl
  have hgsC : ∀ s ∈ gs, classify fs s = SpecClass.globSpec :=
    fun s hs => classify_glob_of_contains fs s (hg s hs)
  have hAC : ∀ s ∈ (fs.iterdir d).filter (fun p => fs.isDir p),
      classify fs s = SpecClass.dirSpec ∧ normPath s = s ∧ fs.isDir s = true := by
    intro s hs
    have hs' := List.mem_filter.mp hs
    obtain ⟨h1, h2⟩ := hsub s hs'.1
    have hd : fs.isDir s = true := by simpa using hs'.2
    exact ⟨classify_dir_of_isDir fs s h1 h2 hd, h2, hd⟩
  have hMC : ∀ s ∈ PathSet.resolve_globs fs d gs, normPath s = s ∧
      (classify fs s = SpecClass.dirSpec ↔ fs.isDir s = true) ∧
      (classify fs s = SpecClass.fileSpec ↔ fs.isFile s = true) := by
    intro s hs
    obtain ⟨h1, h2, h3⟩ := hm s hs
    refine ⟨h2, ⟨?_, fun hd => classify_dir_of_isDir fs s h1 h2 hd⟩, ⟨?_, ?_⟩⟩
    · intro hcd
      cases hd : fs.isDir s
      · rcases h3 with h3 | h3
        · rw [hd] at h3
          exact absurd h3 (by simp)
        · have hcf := classify_file_of_isFile fs s h1 h2 h3 hd
          rw [hcf] at hcd
          exact absurd hcd (by simp)
      · rfl
    · intro hcf
      cases hf : fs.isFile s
      · rcases h3 with h3 | h3
        · have hcd := classify_dir_of_isDir fs s h1 h2 h3
          rw [hcd] at hcf
          exact absurd hcf (by simp)
        · rw [hf] at h3
          exact absurd h3 (by simp)
      · rfl
    · intro hf
      cases hd : fs.isDir s
      · exact classify_file_of_isFile fs s h1 h2 hf hd
      · have hx := isFile_eq_false_of_isDir fs s hd
        rw [hf] at hx
        exact absurd hx (by simp)
  refine ⟨?_, ?_, ?_⟩
  · intro g
    rw [hcw, mem_globs_add, mem_globs_add, mem_globs_add]
    simp only [PathSet.emptySet, List.not_mem_nil, false_or]
    constructor
    · rintro ((⟨s, hsgs, _, rfl⟩ | ⟨s, hsA, hc, rfl⟩) | ⟨s, hsM, hc, rfl⟩)
      · exact hsgs
      · rw [(hAC s hsA).1] at hc
        exact absurd hc (by simp)
      · exact absurd hc (classify_ne_glob fs s (hm s hsM).1)
    · intro hgmem
      exact Or.inl (Or.inl ⟨g, hgmem, hgsC g hgmem, rfl⟩)
  · intro p
    rw [hcw, mem_dirs_add, mem_dirs_add, mem_dirs_add]
    simp only [PathSet.emptySet, List.not_mem_nil, false_or]
    constructor
    · rintro ((⟨s, hsgs, hc, rfl⟩ | ⟨s, hsA, hc, hn⟩) | ⟨s, hsM, hc, hn⟩)
      · rw [hgsC s hsgs] at hc
        exact absurd hc (by simp)
      · obtain ⟨_, h2, hd⟩ := hAC s hsA
        rw [h2] at hn
        subst hn
        exact ⟨Or.inl (List.mem_filter.mp hsA).1, hd⟩
      · obtain ⟨h2, hiffd, _⟩ := hMC s hsM
        rw [h2] at hn
        subst hn
        exact ⟨Or.inr hsM, hiffd.mp hc⟩
    · rintro ⟨hp | hp, hd⟩
      · have hpA : p ∈ (fs.iterdir d).filter (fun q => fs.isDir q) :=
          List.mem_filter.mpr ⟨hp, by simpa using hd⟩
        exact Or.inl (Or.inr ⟨p, hpA, (hAC p hpA).1, (hAC p hpA).2.1⟩)
      · exact Or.inr ⟨p, hp, ((hMC p hp).2.1).mpr hd, (hMC p hp).1⟩
  · intro p
    rw [hcw, mem_files_add, mem_files_add, mem_files_add]
    simp only [PathSet.emptySet, List.not_mem_nil, false_or]
    constructor
    · rintro ((⟨s, hsgs, hc, rfl⟩ | ⟨s, hsA, hc, hn⟩) | ⟨s, hsM, hc, hn⟩)
      · rw [hgsC s hsgs] at hc
        exact absurd hc (by simp)
      · rw [(hAC s hsA).1] at hc
        exact absurd hc (by simp)
      · obtain ⟨h2, _, hifff⟩ := hMC s hsM
        rw [h2] at hn
        subst hn
        exact ⟨hsM, hifff.mp hc⟩
    · rintro ⟨hp, hf⟩
      exact Or.inr ⟨p, hp, ((hMC p hp).2.2).mpr hf, (hMC p hp).1⟩

/-- C4 amended witness: at directory `d` with root glob `*`, the matched
regular file `d/m.py` is in the child working set's files. -/
theorem child_work_set_spec_witness :
    "d/m.py" ∈ (childWorkSet fsGlobDir ["*"] "d").files :=
  ((child_work_set_spec fsGlobDir ["*"] "d" (by decide) (by decide) (by decide)).2.2
    "d/m.py").mpr (by decide)

theorem prune_files_subset (a b : PathSet) : (a.prune b).files ⊆ a.files := by
  intro x hx
  exact (List.mem_filter.mp hx).1

theorem traverseDirsWith_yields_mem (fs : FS)
    (step : PathSet → PathSet → List String × PathSet) (gs : List String)
    (P : String → Prop)
    (hstep : ∀ (d : String) (p : PathSet) (y : String),
      y ∈ (step (childWorkSet fs gs d) p).1 → P y) :
    ∀ (ds : List String) (pps : PathSet) (y : String),
      y ∈ (traverseDirsWith fs step gs ds pps).1 → P y := by
  intro ds
  induction ds with
  | nil =>
    intro pps y hy
    simp [traverseDirsWith] at hy
  | cons d t ih =>
    intro pps y hy
    simp only [traverseDirsWith] at hy
    rcases List.mem_append.mp hy with h1 | h2
    · exact hstep d _ y h1
    · exact ih _ y h2

/-- C2 amended: every file yielded by the recursive descent is a
surviving file of a per-level-pruned working set — one of the pruned
initial files at depth 0, or a surviving file of a per-directory child
working set; such child sets acquire files only from the glob matches
resolved at their directory (under the well-formedness of the glob
patterns and listed paths); and on the spec's scenario — sources `proj/`,
prune `proj/build`, `recurse = True`, files `proj/a.py`,
`proj/build/x.py`, `proj/sub/b.py` — the traversal yields exactly
`proj/a.py` and `proj/sub/b.py`, each exactly once. -/
theorem traverse_recursive_sound (fs : FS) (recurse : Bool) (fuel : Nat)
    (sps pps p2 : PathSet) (depth : Nat) (gs : List String) (d : String) :
    (∀ y, y ∈ (traverseAux fs recurse fuel sps pps depth).1 →
      y ∈ (sps.prune pps).files ∨
        ∃ gs2 d2 q, y ∈ ((childWorkSet fs gs2 d2).prune q).files) ∧
    ((∀ g ∈ gs, g.data.contains '*' = true) →
      (∀ p ∈ fs.iterdir d, p.data.contains '*' = false ∧ normPath p = p) →
      (∀ p ∈ PathSet.resolve_globs fs d gs, normPath p = p) →
      ∀ p, p ∈ ((childWorkSet fs gs d).prune p2).files →
        p ∈ PathSet.resolve_globs fs d gs) ∧
    yieldsOf (PathSet.traverse fsScen (PathSet.ofSources fsScen ["proj/"])
      (PathSet.ofSources fsScen ["proj/build"]) true) = ["proj/a.py", "proj/sub/b.py"] := by
  refine ⟨?_, ?_, by decide⟩
  · induction fuel generalizing sps pps depth with
    | zero =>
      intro y hy
      simp [traverseAux] at hy
    | succ n ih =>
      intro y hy
      rw [traverseAux_succ_eq] at hy
      by_cases h : (recurse = false ∧ 0 < depth)
      · rw [if_pos h] at hy
        exact Or.inl hy
      · rw [if_neg h] at hy
        rcases List.mem_append.mp hy with h1 | h2
        · exact Or.inl h1
        · refine Or.inr ?_
          refine traverseDirsWith_yields_mem fs _ (sps.prune pps).globs
            (fun z => ∃ gs2 d2 q, z ∈ ((childWorkSet fs gs2 d2).prune q).files)
            ?_ _ _ y h2
          intro d2 p z hz
          rcases ih (childWorkSet fs (sps.prune pps).globs d2) p (depth + 1) z hz with hl | hr
          · exact ⟨(sps.prune pps).globs, d2, p, hl⟩
          · exact hr
  · intro hg hsub hnorm p hp
    have hp2 : p ∈ (childWorkSet fs gs d).files := prune_files_subset _ _ hp
    have hcw : childWorkSet fs gs d =
        PathSet.add fs (PathSet.add fs (PathSet.add fs PathSet.emptySet gs)
          ((fs.iterdir d).filter (fun q => fs.isDir q)))
          (PathSet.resolve_globs fs d gs) := rfl
    rw [hcw, mem_files_add, mem_files_add, mem_files_add] at hp2
    simp only [PathSet.emptySet, List.not_mem_nil, false_or] at hp2
    rcases hp2 with (⟨s, hs, hc, _⟩ | ⟨s, hs, hc, _⟩) | ⟨s, hs, _, hn⟩
    · rw [classify_glob_of_contains fs s (hg s hs)] at hc
      exact absurd hc (by simp)
    · have hs2 := List.mem_filter.mp hs
      obtain ⟨h1, h2⟩ := hsub s hs2.1
      rw [classify_dir_of_isDir fs s h1 h2 (by simpa using hs2.2)] at hc
      exact absurd hc (by simp)
    · rw [hnorm s hs] at hn
      subst hn
      exact hs

/-- C2 amended witness: at the scenario directory `proj` with root glob
`*`, the child working set's surviving file `proj/a.py` is indeed a glob
match at `proj`. -/
theorem traverse_recursive_sound_witness :
    "proj/a.py" ∈ PathSet.resolve_globs fsScen "proj" ["*"] :=
  (traverse_recursive_sound fsScen true 0 PathSet.emptySet PathSet.emptySet
    PathSet.emptySet 0 ["*"] "proj").2.1 (by decide) (by decide) (by decide)
    "proj/a.py" (by decide)
